import Mathlib

/-!
Verification of the `logr` structured-logging front-end (package `logr`,
file `sugar.go`) and of the JSON formatter (`format/json.go`) against the
natural-language specification of the pipeline.

The front-end `Sugar` logger, the JSON formatter and the tests are translated
from the source.  The dispatcher (`Logr`), the severity/filter model and the
record constructor (`NewLogRec`) are not part of the provided source tree
(only their callers and tests are), so they are modelled from the spec; each
such definition is marked `Modelled from the spec:` in its doc comment.

Effectful Go code is embedded as pure functions that return, in program
order, the list of observable events (dispatcher calls, record construction,
enqueue/offer, error-hook invocations, process-exit and panic escalation).
Go maps are embedded as references into an explicit heap of association
lists, so that the copy-on-write behaviour of `Sugar.WithFields` (aliasing
versus copying) is expressible.
-/

set_option maxHeartbeats 1000000
set_option linter.unusedVariables false

/-- Values stored in `Fields` maps and passed as logging arguments; Go's
`interface{}` is modelled by a small closed set of value kinds. -/
inductive Value where
  | str (s : String)
  | int (i : Int)
  | bool (b : Bool)
deriving DecidableEq

/-- Modelled from the spec: a severity level
`{id: unsigned integer, name: string, defaultStacktrace: boolean}`,
a value type compared by id.  Field names follow the Go struct
(`logr.Level{ID, Name, Stacktrace}`) as used by the tests. -/
structure Level where
  ID : Nat
  Name : String
  Stacktrace : Bool
deriving DecidableEq

/-- Modelled from the spec: the fixed maximum id of the application-definable
level range; a Level with a larger id is invalid. -/
def MaxLevelID : Nat := 256

/-- Modelled from the spec: the reserved low id range for the built-in
severities, ordered by increasing severity. -/
def Level.Trace : Level := ⟨1, "trace", false⟩

/-- Modelled from the spec: built-in Debug severity. -/
def Level.Debug : Level := ⟨2, "debug", false⟩

/-- Modelled from the spec: built-in Info severity. -/
def Level.Info : Level := ⟨3, "info", false⟩

/-- Modelled from the spec: built-in Warn severity. -/
def Level.Warn : Level := ⟨4, "warn", false⟩

/-- Modelled from the spec: built-in Error severity. -/
def Level.Error : Level := ⟨5, "error", false⟩

/-- Modelled from the spec: built-in Fatal severity. -/
def Level.Fatal : Level := ⟨6, "fatal", false⟩

/-- Modelled from the spec: built-in Panic severity. -/
def Level.Panic : Level := ⟨7, "panic", false⟩

/-- Custom level `LoginLevel` from `levelcustom_test.go`. -/
def LoginLevel : Level := ⟨100, "login ", false⟩

/-- Custom level `LogoutLevel` from `levelcustom_test.go`. -/
def LogoutLevel : Level := ⟨101, "logout", false⟩

/-- Custom level `BadLevel = Level{ID: MaxLevelID + 1, ...}` from
`levelcustom_test.go`. -/
def BadLevel : Level := ⟨MaxLevelID + 1, "invalid", false⟩

/-- Modelled from the spec: the error an explicit filter reports when asked to
evaluate a level whose id exceeds `MaxLevelID`. -/
inductive FilterError where
  | invalidLevelID
deriving DecidableEq

/-- Modelled from the spec: result of `Filter.Evaluate(level)`. -/
structure FilterStatus where
  Enabled : Bool
  Stacktrace : Bool
  Err : Option FilterError
deriving DecidableEq

/-- Modelled from the spec: a per-target filter, polymorphic over the
threshold variant (`StdFilter{Lvl, Stacktrace}`) and the explicit variant
(`CustomFilter` holding the individually registered levels). -/
inductive LogrFilter where
  | std (Lvl : Level) (Stacktrace : Level)
  | custom (levels : List Level)
deriving DecidableEq

/-- Modelled from the spec: `CustomFilter.Add` registers levels in the
explicit filter's set; registration is accepted unconditionally and cannot
fail, even for a level whose id exceeds `MaxLevelID`. -/
def CustomFilter.Add (levels newLevels : List Level) : List Level :=
  levels ++ newLevels

/-- Modelled from the spec: `Filter.Evaluate(level)`, a pure function of the
filter state and the candidate level.  The threshold variant enables a
candidate whose severity ordinal is at least the enabled threshold (for the
built-in range the ordinal order coincides with the id order).  The explicit
variant enables a candidate only if its id is in the registered set, taking
the stacktrace requirement from that registered level's default flag; a
candidate id above `MaxLevelID` yields `enabled = false` and the
`InvalidLevelID` error. -/
def LogrFilter.Evaluate : LogrFilter → Level → FilterStatus
  | .std lvl st, l =>
    { Enabled := decide (lvl.ID ≤ l.ID), Stacktrace := decide (st.ID ≤ l.ID), Err := none }
  | .custom levels, l =>
    if MaxLevelID < l.ID then
      { Enabled := false, Stacktrace := false, Err := some .invalidLevelID }
    else
      match levels.find? (fun r => r.ID == l.ID) with
      | some r => { Enabled := true, Stacktrace := r.Stacktrace, Err := none }
      | none => { Enabled := false, Stacktrace := false, Err := none }

/-- Modelled from the spec: the aggregate answer of
`Logr.IsLevelEnabled(level)` consumed by the front-end. -/
structure LevelStatus where
  Enabled : Bool
  Stacktrace : Bool
deriving DecidableEq

/-- The dispatcher.  Only the state the front-end claims depend on is kept:
the registered target filters (the queues, formatters and writers of the
targets are out of scope here). -/
structure Logr where
  targets : List LogrFilter
deriving DecidableEq

/-- A `Sugar` front-end logger: a dispatcher plus a field set.  The Go
`fields Fields` map reference is embedded as an optional address into an
explicit heap of field maps; `none` models the nil map of the zero value. -/
structure Sugar where
  logr : Logr
  fields : Option Nat
deriving DecidableEq

/-- Modelled from the spec: a log record
`{level, field-set reference (no copy), template, args, newlineStyle,
capturedStack}`.  Stack capture is abstracted to the boolean decision the
front-end passes to `NewLogRec`. -/
structure LogRec where
  lvl : Level
  fields : Option Nat
  template : String
  args : List Value
  newline : Bool
  stacktrace : Bool
deriving DecidableEq

/-- Modelled from the spec: `NewLogRec` captures the level, the logger's
field-set reference, the template, the args and the stacktrace decision;
the newline flag starts out false. -/
def NewLogRec (lvl : Level) (logger : Sugar) (template : String) (args : List Value)
    (incStacktrace : Bool) : LogRec :=
  { lvl := lvl, fields := logger.fields, template := template, args := args,
    newline := false, stacktrace := incStacktrace }

/-- Observable events of a front-end logging call, in program order. -/
inductive Event where
  | isLevelEnabledCall (lvl : Level)
  | onLoggerError
  | newLogRecCall (r : LogRec)
  | enqueueCall (r : LogRec)
  | offer (target : Nat) (r : LogRec)
  | exitCall (code : Int)
  | panicCall (msg : String)
deriving DecidableEq

/-- Modelled from the spec: `Logr.IsLevelEnabled(level)` evaluates the level
against every registered target's filter and returns the logical OR of
`enabled` and the logical OR of `needs stacktrace` among the targets enabled
for this level; an `InvalidLevelID` evaluation error is routed to the
error-reporting hook exactly once per call. -/
def Logr.IsLevelEnabled (lgr : Logr) (lvl : Level) : LevelStatus × List Event :=
  let sts := lgr.targets.map (fun t => t.Evaluate lvl)
  ({ Enabled := sts.any (fun s => s.Enabled),
     Stacktrace := sts.any (fun s => s.Enabled && s.Stacktrace) },
   if sts.any (fun s => s.Err.isSome) then [Event.onLoggerError] else [])

/-- Modelled from the spec: `Logr.enqueue(record)` re-evaluates each target's
filter and offers the record to each target whose filter accepts the level;
an evaluation error is forwarded to the error-reporting hook. -/
def Logr.enqueue (lgr : Logr) (r : LogRec) : List Event :=
  Event.enqueueCall r ::
    lgr.targets.enum.filterMap (fun p =>
      let s := p.2.Evaluate r.lvl
      if s.Enabled then some (Event.offer p.1 r)
      else if s.Err.isSome then some Event.onLoggerError
      else none)

/-- Translation of `Sugar.Log` (sugar.go): query the dispatcher once; only
when the returned status is enabled, construct a record via `NewLogRec`
(carrying the returned stacktrace decision) and enqueue it. -/
def Sugar.Log (logger : Sugar) (lvl : Level) (args : List Value) : List Event :=
  let se := logger.logr.IsLevelEnabled lvl
  Event.isLevelEnabledCall lvl :: se.2 ++
    (if se.1.Enabled then
      let r := NewLogRec lvl logger "" args se.1.Stacktrace
      Event.newLogRecCall r :: logger.logr.enqueue r
    else [])

/-- Translation of `Sugar.Trace`. -/
def Sugar.Trace (logger : Sugar) (args : List Value) : List Event :=
  logger.Log Level.Trace args

/-- Translation of `Sugar.Debug`. -/
def Sugar.Debug (logger : Sugar) (args : List Value) : List Event :=
  logger.Log Level.Debug args

/-- Translation of `Sugar.Info`. -/
def Sugar.Info (logger : Sugar) (args : List Value) : List Event :=
  logger.Log Level.Info args

/-- Translation of `Sugar.Print` (delegates to `Info`). -/
def Sugar.Print (logger : Sugar) (args : List Value) : List Event :=
  logger.Info args

/-- Translation of `Sugar.Warn`. -/
def Sugar.Warn (logger : Sugar) (args : List Value) : List Event :=
  logger.Log Level.Warn args

/-- Translation of `Sugar.Error`. -/
def Sugar.Error (logger : Sugar) (args : List Value) : List Event :=
  logger.Log Level.Error args

/-- Translation of `Sugar.Fatal`: log at Fatal severity, then call the
dispatcher's exit hook with status 1. -/
def Sugar.Fatal (logger : Sugar) (args : List Value) : List Event :=
  logger.Log Level.Fatal args ++ [Event.exitCall 1]

/-- Rendering of a single operand in the manner of the Go `fmt` package. -/
def Value.render : Value → String
  | .str s => s
  | .int i => toString i
  | .bool b => toString b

/-- Whether an operand is a string (for `fmt.Sprint` spacing). -/
def Value.isString : Value → Bool
  | .str _ => true
  | _ => false

/-- Modelled from the Go standard library: `fmt.Sprint` concatenates the
rendered operands, adding a space between two operands when neither is a
string. -/
def fmtSprint : List Value → String
  | [] => ""
  | [v] => v.render
  | v :: w :: rest =>
    v.render ++ (if v.isString || w.isString then "" else " ") ++ fmtSprint (w :: rest)

/-- Translation of `Sugar.Panic`: log at Panic severity, then raise a panic
to the caller carrying the `fmt.Sprint`-rendered arguments. -/
def Sugar.Panic (logger : Sugar) (args : List Value) : List Event :=
  logger.Log Level.Panic args ++ [Event.panicCall (fmtSprint args)]

/-- Translation of `Sugar.Logf` (the Printf-style entry point). -/
def Sugar.Logf (logger : Sugar) (lvl : Level) (format : String) (args : List Value) :
    List Event :=
  let se := logger.logr.IsLevelEnabled lvl
  Event.isLevelEnabledCall lvl :: se.2 ++
    (if se.1.Enabled then
      let r := NewLogRec lvl logger format args se.1.Stacktrace
      Event.newLogRecCall r :: logger.logr.enqueue r
    else [])

/-- Translation of `Sugar.Tracef`. -/
def Sugar.Tracef (logger : Sugar) (format : String) (args : List Value) : List Event :=
  logger.Logf Level.Trace format args

/-- Translation of `Sugar.Debugf`. -/
def Sugar.Debugf (logger : Sugar) (format : String) (args : List Value) : List Event :=
  logger.Logf Level.Debug format args

/-- Translation of `Sugar.Infof`. -/
def Sugar.Infof (logger : Sugar) (format : String) (args : List Value) : List Event :=
  logger.Logf Level.Info format args

/-- Translation of `Sugar.Printf` (delegates to `Infof`). -/
def Sugar.Printf (logger : Sugar) (format : String) (args : List Value) : List Event :=
  logger.Infof format args

/-- Translation of `Sugar.Warnf`. -/
def Sugar.Warnf (logger : Sugar) (format : String) (args : List Value) : List Event :=
  logger.Logf Level.Warn format args

/-- Translation of `Sugar.Errorf`. -/
def Sugar.Errorf (logger : Sugar) (format : String) (args : List Value) : List Event :=
  logger.Logf Level.Error format args

/-- Translation of `Sugar.Fatalf`: log, then exit hook with status 1. -/
def Sugar.Fatalf (logger : Sugar) (format : String) (args : List Value) : List Event :=
  logger.Logf Level.Fatal format args ++ [Event.exitCall 1]

/-- Translation of `Sugar.Panicf`: logs at Panic severity; unlike `Panic`
the source raises no panic afterwards. -/
def Sugar.Panicf (logger : Sugar) (format : String) (args : List Value) : List Event :=
  logger.Logf Level.Panic format args

/-- Translation of `Sugar.Logln` (the Println-style entry point): the record
is constructed by `NewLogRec` and its newline flag is then set before it is
enqueued. -/
def Sugar.Logln (logger : Sugar) (lvl : Level) (args : List Value) : List Event :=
  let se := logger.logr.IsLevelEnabled lvl
  Event.isLevelEnabledCall lvl :: se.2 ++
    (if se.1.Enabled then
      let r := NewLogRec lvl logger "" args se.1.Stacktrace
      Event.newLogRecCall r :: logger.logr.enqueue { r with newline := true }
    else [])

/-- Translation of `Sugar.Traceln`. -/
def Sugar.Traceln (logger : Sugar) (args : List Value) : List Event :=
  logger.Logln Level.Trace args

/-- Translation of `Sugar.Debugln`. -/
def Sugar.Debugln (logger : Sugar) (args : List Value) : List Event :=
  logger.Logln Level.Debug args

/-- Translation of `Sugar.Infoln`. -/
def Sugar.Infoln (logger : Sugar) (args : List Value) : List Event :=
  logger.Logln Level.Info args

/-- Translation of `Sugar.Println` (delegates to `Infoln`). -/
def Sugar.Println (logger : Sugar) (args : List Value) : List Event :=
  logger.Infoln args

/-- Translation of `Sugar.Warnln`. -/
def Sugar.Warnln (logger : Sugar) (args : List Value) : List Event :=
  logger.Logln Level.Warn args

/-- Translation of `Sugar.Errorln`. -/
def Sugar.Errorln (logger : Sugar) (args : List Value) : List Event :=
  logger.Logln Level.Error args

/-- Translation of `Sugar.Fatalln`: log, then exit hook with status 1. -/
def Sugar.Fatalln (logger : Sugar) (args : List Value) : List Event :=
  logger.Logln Level.Fatal args ++ [Event.exitCall 1]

/-- Translation of `Sugar.Panicln`: logs at Panic severity; unlike `Panic`
the source raises no panic afterwards. -/
def Sugar.Panicln (logger : Sugar) (args : List Value) : List Event :=
  logger.Logln Level.Panic args

/-- Records constructed (via `NewLogRec`) during a trace. -/
def newRecs (evs : List Event) : List LogRec :=
  evs.filterMap fun e => match e with | .newLogRecCall r => some r | _ => none

/-- Records passed to the dispatcher's `enqueue` during a trace. -/
def enqueuedRecs (evs : List Event) : List LogRec :=
  evs.filterMap fun e => match e with | .enqueueCall r => some r | _ => none

/-- Records offered to individual targets during a trace. -/
def offersOf (evs : List Event) : List (Nat × LogRec) :=
  evs.filterMap fun e => match e with | .offer i r => some (i, r) | _ => none

/-- Panic messages raised to the caller during a trace. -/
def panicsOf (evs : List Event) : List String :=
  evs.filterMap fun e => match e with | .panicCall m => some m | _ => none

/-- Exit-hook invocations during a trace. -/
def exitsOf (evs : List Event) : List Int :=
  evs.filterMap fun e => match e with | .exitCall c => some c | _ => none

/-- Number of error-reporting hook invocations during a trace. -/
def errorReports (evs : List Event) : Nat :=
  evs.countP fun e => match e with | .onLoggerError => true | _ => false


/-- A Go `Fields` map value (`map[string]interface{}`), embedded as an
association list with unique keys. -/
abbrev GoFields := List (String × Value)

/-- First-match association lookup, the observation for Go map reads. -/
def findField : GoFields → String → Option Value
  | [], _ => none
  | (k0, v0) :: rest, key => if k0 = key then some v0 else findField rest key

/-- Go map assignment `m[k] = v`: replace the entry in place or append. -/
def insertField : GoFields → String → Value → GoFields
  | [], k, v => [(k, v)]
  | (k0, v0) :: rest, k, v =>
    if k0 = k then (k, v) :: rest else (k0, v0) :: insertField rest k v

/-- A Go `for k, v := range src { dst[k] = v }` copy loop.  Go iterates maps
in unspecified order; insertion in list order is a faithful model up to
lookup because Go maps have unique keys. -/
def insertAll (dst src : GoFields) : GoFields :=
  src.foldl (fun acc p => insertField acc p.1 p.2) dst

/-- The unique-keys invariant every Go map value satisfies. -/
def keysNodup (m : GoFields) : Prop :=
  (m.map Prod.fst).Nodup

instance (m : GoFields) : Decidable (keysNodup m) := by
  unfold keysNodup
  infer_instance

/-- The heap of allocated field maps; a Go map reference is an index. -/
structure Heap where
  maps : List GoFields
deriving DecidableEq

/-- Dereference a map (reads of an address never allocated yield the empty
map; the translated code only dereferences live addresses). -/
def Heap.get (h : Heap) (r : Nat) : GoFields :=
  h.maps.getD r []

/-- Allocation (`make(Fields, ...)` or a map literal): the new map is
appended and its fresh address returned. -/
def Heap.alloc (h : Heap) (m : GoFields) : Heap × Nat :=
  (⟨h.maps ++ [m]⟩, h.maps.length)

/-- In-place mutation of the map stored at an address (a caller writing
through its own reference). -/
def Heap.write (h : Heap) (r : Nat) (m : GoFields) : Heap :=
  ⟨h.maps.set r m⟩

/-- The map value a logger's `fields` reference denotes (the Go nil map reads
as the empty map). -/
def Sugar.fieldMap (h : Heap) (logger : Sugar) : GoFields :=
  match logger.fields with
  | none => []
  | some r => h.get r

/-- Go `len(logger.fields)` (0 for the nil map). -/
def Sugar.fieldsLen (h : Heap) (logger : Sugar) : Nat :=
  (Sugar.fieldMap h logger).length

/-- A key lookup through a logger's field-set reference. -/
def Sugar.fieldValue (h : Heap) (logger : Sugar) (key : String) : Option Value :=
  findField (Sugar.fieldMap h logger) key

/-- Validity of a logger's field-set reference in a heap. -/
def Sugar.wfRef (h : Heap) (logger : Sugar) : Prop :=
  match logger.fields with
  | none => True
  | some r => r < h.maps.length

/-- Translation of `Sugar.WithFields` (sugar.go): build a logger bound to
the same dispatcher; if the parent has no fields, store the caller's map
reference itself (avoiding a new map); otherwise allocate a fresh map and
copy the parent's entries and then the new entries into it. -/
def Sugar.WithFields (h : Heap) (logger : Sugar) (fields : Nat) : Heap × Sugar :=
  let l : Sugar := { logr := logger.logr, fields := none }
  let oldLen := Sugar.fieldsLen h logger
  if oldLen = 0 then
    (h, { l with fields := some fields })
  else
    let m := insertAll (insertAll [] (Sugar.fieldMap h logger)) (h.get fields)
    let hr := h.alloc m
    (hr.1, { l with fields := some hr.2 })

/-- Translation of `Sugar.WithField` (sugar.go): allocate the one-entry map
literal `Fields{key: value}` and delegate to `WithFields`. -/
def Sugar.WithField (h : Heap) (logger : Sugar) (key : String) (value : Value) :
    Heap × Sugar :=
  let hr := h.alloc [(key, value)]
  Sugar.WithFields hr.1 logger hr.2

/-- The kind tag of a structured context field (`logr.Field`'s `Type`).
`encodeField` switches over it; `unknownType` is the one kind the source
emits under the field's own key, `boolType` stands for the explicit
parseable arms that emit under the supplied key, and `defaultType` for the
remaining kinds handled by the default arm (also under the supplied key). -/
inductive FieldKind where
  | unknownType
  | boolType
  | defaultType
deriving DecidableEq

/-- A structured context field (`logr.Field`) as consumed by the JSON
formatter: its key, its kind tag (Go's `Type`, a Lean keyword) and an
opaque value. -/
structure LogField where
  Key : String
  type : FieldKind
  Val : Value
deriving DecidableEq

/-- A captured stack frame (`runtime.Frame`) as encoded by the formatter. -/
structure StackFrame where
  Function : String
  File : String
  Line : Int
deriving DecidableEq

/-- Modelled from the spec: the read-only view of a `logr.LogRec` the JSON
formatter consumes through the accessors `Time()`, `Level().Name`, `Msg()`,
`Fields()` and `StackFrames()`. -/
structure RecView where
  time : Int
  levelName : String
  msg : String
  fields : List LogField
  frames : List StackFrame
deriving DecidableEq

/-- A JSON value emitted for one top-level key by the gojay encoder; the
per-kind value rendering of `encodeField` is abstracted into `jfield`. -/
inductive JVal where
  | jtime (t : Int) (layout : String)
  | jstr (s : String)
  | jfield (f : LogField)
  | jobj (fs : List LogField)
  | jarr (fs : List StackFrame)
deriving DecidableEq

/-- Translation of `encodeField` (format/json.go): a switch over the
field's kind.  The `UnknownType` arm emits under the field's own,
unprefixed key (`enc.AddStringKey(field.Key, "UnknownType")`), while every
other parseable arm and the default arm emit under the supplied key; the
rendered value is abstracted into `jfield` in all arms. -/
def encodeField (key : String) (field : LogField) : String × JVal :=
  match field.type with
  | .unknownType => (field.Key, JVal.jfield field)
  | _ => (key, JVal.jfield field)

/-- Default timestamp layout of the logr package (its exact value is
immaterial to the claims). -/
def DefTimestampFormat : String := "2006-01-02 15:04:05.000 Z07:00"

/-- Translation of the `JSON` formatter struct (format/json.go).  The
deprecated, effect-free `Indent` field is omitted; `sync.Once` is embedded
as the `onceDone` flag.  A configured `ContextSorter` receives the record's
field slice and returns the pair (that slice as left after the call, the
returned slice), so that mutation of the argument is expressible. -/
structure JSON where
  DisableTimestamp : Bool
  DisableLevel : Bool
  DisableMsg : Bool
  DisableContext : Bool
  DisableStacktrace : Bool
  TimestampFormat : String
  EscapeHTML : Bool
  KeyTimestamp : String
  KeyLevel : String
  KeyMsg : String
  KeyContextFields : String
  KeyStacktrace : String
  ContextSorter : Option (List LogField → List LogField × List LogField)
  onceDone : Bool

/-- Translation of `JSON.applyDefaultKeyNames`: empty key names receive
their defaults. -/
def JSON.applyDefaultKeyNames (j : JSON) : JSON :=
  let j := if j.KeyTimestamp = "" then { j with KeyTimestamp := "timestamp" } else j
  let j := if j.KeyLevel = "" then { j with KeyLevel := "level" } else j
  let j := if j.KeyMsg = "" then { j with KeyMsg := "msg" } else j
  if j.KeyStacktrace = "" then { j with KeyStacktrace := "stacktrace" } else j

/-- Translation of `j.once.Do(j.applyDefaultKeyNames)`. -/
def JSON.onceDo (j : JSON) : JSON :=
  if j.onceDone then j else { j.applyDefaultKeyNames with onceDone := true }

/-- Insertion of a field into a key-sorted list, keeping it sorted; together
with `sortFields` this models Go's `sort.Slice(sorted, by Key)` (an in-place
comparison sort whose output order is exactly: nondecreasing by key). -/
def insertSorted (f : LogField) : List LogField → List LogField
  | [] => [f]
  | g :: gs => if f.Key ≤ g.Key then f :: g :: gs else g :: insertSorted f gs

/-- Sorting of a field slice by key (see `insertSorted`). -/
def sortFields : List LogField → List LogField
  | [] => []
  | f :: fs => insertSorted f (sortFields fs)

/-- Translation of `JSON.defaultContextSorter` (format/json.go): allocate a
copy of the field slice, sort the copy by key, return it.  Following the
slice-threading convention the result pairs the caller's slice as left
after the call with the returned slice: the sort is applied to the fresh
copy `sorted`, never to `fields`. -/
def JSON.defaultContextSorter (j : JSON) (fields : List LogField) :
    List LogField × List LogField :=
  let sorted := fields
  let sorted := sortFields sorted
  (fields, sorted)

/-- Translation of the `JSONLogRec` decorator struct (format/json.go):
the record view, the embedded formatter configuration, the cached
stacktrace decision and the chosen sorter. -/
structure JSONLogRec where
  rv : RecView
  cfg : JSON
  stacktrace : Bool
  sorter : List LogField → List LogField × List LogField

/-- The longest configured reserved key name (termination measure for
`prefixCollision`). -/
def reservedKeyLen (cfg : JSON) : Nat :=
  max (max cfg.KeyTimestamp.length cfg.KeyLevel.length)
    (max cfg.KeyMsg.length cfg.KeyStacktrace.length)

/-- Translation of `JSONLogRec.prefixCollision` (format/json.go): while the
key equals one of the four configured reserved key names, prepend an
underscore. -/
def JSONLogRec.prefixCollision (r : JSONLogRec) (key : String) : String :=
  if h : key = r.cfg.KeyTimestamp ∨ key = r.cfg.KeyLevel ∨ key = r.cfg.KeyMsg ∨
      key = r.cfg.KeyStacktrace then
    r.prefixCollision ("_" ++ key)
  else key
termination_by reservedKeyLen r.cfg + 1 - key.length
decreasing_by
  have hle : key.length ≤ reservedKeyLen r.cfg := by
    unfold reservedKeyLen
    rcases h with h | h | h | h <;> rw [h] <;>
      first
      | exact le_trans (Nat.le_max_left _ _) (Nat.le_max_left _ _)
      | exact le_trans (Nat.le_max_right _ _) (Nat.le_max_left _ _)
      | exact le_trans (Nat.le_max_left _ _) (Nat.le_max_right _ _)
      | exact le_trans (Nat.le_max_right _ _) (Nat.le_max_right _ _)
  have hlen : ("_" ++ key).length = 1 + key.length := by
    have h1 : ("_" : String).length = 1 := rfl
    rw [String.length_append, h1]
  omega

/-- The key produced by prepending `n` underscores. -/
def addUnderscores : Nat → String → String
  | 0, key => key
  | n + 1, key => addUnderscores n ("_" ++ key)

/-- Translation of `JSONLogRec.MarshalJSONObject` (format/json.go): the
gojay encoder is abstracted to the ordered list of top-level key-value
emissions; each context field is passed to `encodeField` together with its
collision-prefixed key.  The record view is returned alongside, carrying
the field slice as the sorter call left it, so that (absence of) record
mutation is observable. -/
def JSONLogRec.MarshalJSONObject (r : JSONLogRec) : RecView × List (String × JVal) :=
  let tsEntries : List (String × JVal) :=
    if !r.cfg.DisableTimestamp then
      let layout :=
        if r.cfg.TimestampFormat = "" then DefTimestampFormat else r.cfg.TimestampFormat
      [(r.cfg.KeyTimestamp, JVal.jtime r.rv.time layout)]
    else []
  let lvlEntries : List (String × JVal) :=
    if !r.cfg.DisableLevel then [(r.cfg.KeyLevel, JVal.jstr r.rv.levelName)] else []
  let msgEntries : List (String × JVal) :=
    if !r.cfg.DisableMsg then [(r.cfg.KeyMsg, JVal.jstr r.rv.msg)] else []
  let ctxStep : RecView × List (String × JVal) :=
    if !r.cfg.DisableContext then
      let sres := r.sorter r.rv.fields
      let rv := { r.rv with fields := sres.1 }
      let ctxFields := sres.2
      if r.cfg.KeyContextFields ≠ "" then
        (rv, [(r.cfg.KeyContextFields, JVal.jobj ctxFields)])
      else if 0 < ctxFields.length then
        (rv, ctxFields.map (fun cf => encodeField (r.prefixCollision cf.Key) cf))
      else (rv, [])
    else (r.rv, [])
  let stEntries : List (String × JVal) :=
    if r.stacktrace && !r.cfg.DisableStacktrace then
      if 0 < r.rv.frames.length then [(r.cfg.KeyStacktrace, JVal.jarr r.rv.frames)] else []
    else []
  (ctxStep.1, tsEntries ++ lvlEntries ++ msgEntries ++ ctxStep.2 ++ stEntries)

/-- Translation of `JSON.Format` (format/json.go): apply the default key
names once, pick the context sorter (the default one when none is
configured), build the `JSONLogRec` decorator and encode it.  Buffer
management (nil buffer, gojay borrow/release, the trailing newline) has no
effect on the emissions and is not modelled. -/
def JSON.Format (j : JSON) (rv : RecView) (stacktrace : Bool) :
    JSON × RecView × List (String × JVal) :=
  let j := j.onceDo
  let sorter :=
    match j.ContextSorter with
    | some s => s
    | none => fun fs => j.defaultContextSorter fs
  let jlr : JSONLogRec := { rv := rv, cfg := j, stacktrace := stacktrace, sorter := sorter }
  let out := jlr.MarshalJSONObject
  (j, out.1, out.2)

/-- The keys under which context fields are emitted at the top level of the
JSON object. -/
def contextKeys (out : List (String × JVal)) : List String :=
  out.filterMap fun e => match e.2 with | .jfield _ => some e.1 | _ => none

/-- The gating contract of the front-end (§4.4, §6): the trace opens with the
`IsLevelEnabled` query; the `NewLogRec` record carrying the returned
stacktrace decision is constructed and handed to `enqueue` exactly when the
returned status is enabled, and no record at all is constructed otherwise.
`enqNewline` tells whether the variant sets the record's newline flag
between construction and enqueueing (the Println style). -/
def GatedAt (logger : Sugar) (lvl : Level) (template : String) (args : List Value)
    (enqNewline : Bool) (evs : List Event) : Prop :=
  let status := (logger.logr.IsLevelEnabled lvl).1
  let r0 := NewLogRec lvl logger template args status.Stacktrace
  evs.head? = some (Event.isLevelEnabledCall lvl) ∧
  newRecs evs = (if status.Enabled then [r0] else []) ∧
  enqueuedRecs evs =
    (if status.Enabled then [if enqNewline then { r0 with newline := true } else r0] else [])

@[simp] theorem newRecs_nil : newRecs [] = [] := rfl

@[simp] theorem enqueuedRecs_nil : enqueuedRecs [] = [] := rfl

@[simp] theorem panicsOf_nil : panicsOf [] = [] := rfl

@[simp] theorem exitsOf_nil : exitsOf [] = [] := rfl

@[simp] theorem offersOf_nil : offersOf [] = [] := rfl

@[simp] theorem newRecs_append (l₁ l₂ : List Event) :
    newRecs (l₁ ++ l₂) = newRecs l₁ ++ newRecs l₂ := by
  simp [newRecs]

@[simp] theorem enqueuedRecs_append (l₁ l₂ : List Event) :
    enqueuedRecs (l₁ ++ l₂) = enqueuedRecs l₁ ++ enqueuedRecs l₂ := by
  simp [enqueuedRecs]

@[simp] theorem panicsOf_append (l₁ l₂ : List Event) :
    panicsOf (l₁ ++ l₂) = panicsOf l₁ ++ panicsOf l₂ := by
  simp [panicsOf]

@[simp] theorem exitsOf_append (l₁ l₂ : List Event) :
    exitsOf (l₁ ++ l₂) = exitsOf l₁ ++ exitsOf l₂ := by
  simp [exitsOf]

@[simp] theorem offersOf_append (l₁ l₂ : List Event) :
    offersOf (l₁ ++ l₂) = offersOf l₁ ++ offersOf l₂ := by
  simp [offersOf]

/-- Generic evaluation of an observation over the events of `Logr.enqueue`:
only the `enqueueCall` head can be selected if the observation ignores
offers and error reports. -/
theorem enqueue_filterMap_obs {α : Type} (g : Event → Option α)
    (hoffer : ∀ i r, g (Event.offer i r) = none)
    (herr : g Event.onLoggerError = none) (lgr : Logr) (r : LogRec) :
    (Logr.enqueue lgr r).filterMap g = (g (Event.enqueueCall r)).toList := by
  have htail : ∀ l : List (Nat × LogrFilter),
      (l.filterMap (fun p =>
        let s := p.2.Evaluate r.lvl
        if s.Enabled then some (Event.offer p.1 r)
        else if s.Err.isSome then some Event.onLoggerError
        else none)).filterMap g = [] := by
    intro l
    induction l with
    | nil => rfl
    | cons p ps ih =>
      simp only [List.filterMap_cons]
      by_cases h1 : (p.2.Evaluate r.lvl).Enabled
      · simp [h1, List.filterMap_cons, hoffer, ih]
      · by_cases h2 : ((p.2.Evaluate r.lvl).Err).isSome
        · simp [h1, h2, List.filterMap_cons, herr, ih]
        · simp [h1, h2, ih]
  cases hg : g (Event.enqueueCall r) with
  | none => simp [Logr.enqueue, List.filterMap_cons, hg, htail]
  | some a => simp [Logr.enqueue, List.filterMap_cons, hg, htail]

/-- Generic evaluation of an observation over the events emitted by
`Logr.IsLevelEnabled`: nothing is selected if the observation ignores error
reports. -/
theorem isLevelEnabled_filterMap_obs {α : Type} (g : Event → Option α)
    (herr : g Event.onLoggerError = none) (lgr : Logr) (lvl : Level) :
    ((lgr.IsLevelEnabled lvl).2).filterMap g = [] := by
  simp only [Logr.IsLevelEnabled]
  split <;> simp [herr]

theorem newRecs_enqueue (lgr : Logr) (r : LogRec) :
    newRecs (Logr.enqueue lgr r) = [] := by
  rw [newRecs, enqueue_filterMap_obs] <;> intros <;> rfl

theorem enqueuedRecs_enqueue (lgr : Logr) (r : LogRec) :
    enqueuedRecs (Logr.enqueue lgr r) = [r] := by
  rw [enqueuedRecs, enqueue_filterMap_obs] <;> intros <;> rfl

theorem newRecs_isLevelEnabled (lgr : Logr) (lvl : Level) :
    newRecs ((lgr.IsLevelEnabled lvl).2) = [] := by
  rw [newRecs, isLevelEnabled_filterMap_obs] ; rfl

theorem enqueuedRecs_isLevelEnabled (lgr : Logr) (lvl : Level) :
    enqueuedRecs ((lgr.IsLevelEnabled lvl).2) = [] := by
  rw [enqueuedRecs, isLevelEnabled_filterMap_obs] ; rfl

theorem gated_Log (logger : Sugar) (lvl : Level) (args : List Value) :
    GatedAt logger lvl "" args false (Sugar.Log logger lvl args) := by
  refine ⟨rfl, ?_, ?_⟩ <;>
  · simp only [Sugar.Log]
    by_cases hE : (logger.logr.IsLevelEnabled lvl).1.Enabled <;>
      simp [hE, newRecs, enqueuedRecs, List.filterMap_cons, List.filterMap_append,
        isLevelEnabled_filterMap_obs, enqueue_filterMap_obs]

theorem gated_Logf (logger : Sugar) (lvl : Level) (format : String) (args : List Value) :
    GatedAt logger lvl format args false (Sugar.Logf logger lvl format args) := by
  refine ⟨rfl, ?_, ?_⟩ <;>
  · simp only [Sugar.Logf]
    by_cases hE : (logger.logr.IsLevelEnabled lvl).1.Enabled <;>
      simp [hE, newRecs, enqueuedRecs, List.filterMap_cons, List.filterMap_append,
        isLevelEnabled_filterMap_obs, enqueue_filterMap_obs]

theorem gated_Logln (logger : Sugar) (lvl : Level) (args : List Value) :
    GatedAt logger lvl "" args true (Sugar.Logln logger lvl args) := by
  refine ⟨rfl, ?_, ?_⟩ <;>
  · simp only [Sugar.Logln]
    by_cases hE : (logger.logr.IsLevelEnabled lvl).1.Enabled <;>
      simp [hE, newRecs, enqueuedRecs, List.filterMap_cons, List.filterMap_append,
        isLevelEnabled_filterMap_obs, enqueue_filterMap_obs]

theorem gatedAt_append {logger : Sugar} {lvl : Level} {template : String}
    {args : List Value} {nl : Bool} {evs : List Event} (evs' : List Event)
    (hg : GatedAt logger lvl template args nl evs)
    (h1 : newRecs evs' = []) (h2 : enqueuedRecs evs' = []) :
    GatedAt logger lvl template args nl (evs ++ evs') := by
  obtain ⟨hh, hn, he⟩ := hg
  refine ⟨?_, ?_, ?_⟩
  · cases evs with
    | nil => simp at hh
    | cons a l => simpa using hh
  · rw [newRecs_append, hn, h1, List.append_nil]
  · rw [enqueuedRecs_append, he, h2, List.append_nil]

/-- Generic evaluation of an observation that ignores every event a plain
logging call can emit: the three entry points leave no selected event. -/
theorem log_trace_obs {α : Type} (g : Event → Option α)
    (h1 : ∀ l, g (Event.isLevelEnabledCall l) = none)
    (h2 : g Event.onLoggerError = none)
    (h3 : ∀ r, g (Event.newLogRecCall r) = none)
    (h4 : ∀ r, g (Event.enqueueCall r) = none)
    (h5 : ∀ i r, g (Event.offer i r) = none)
    (logger : Sugar) (lvl : Level) (format : String) (args : List Value) :
    (Sugar.Log logger lvl args).filterMap g = [] ∧
    (Sugar.Logf logger lvl format args).filterMap g = [] ∧
    (Sugar.Logln logger lvl args).filterMap g = [] := by
  refine ⟨?_, ?_, ?_⟩ <;>
  · simp only [Sugar.Log, Sugar.Logf, Sugar.Logln]
    by_cases hE : (logger.logr.IsLevelEnabled lvl).1.Enabled <;>
      simp [hE, List.filterMap_cons, List.filterMap_append, h1, h2, h3, h4, h5,
        isLevelEnabled_filterMap_obs, enqueue_filterMap_obs]

theorem panics_Log (logger : Sugar) (lvl : Level) (args : List Value) :
    panicsOf (Sugar.Log logger lvl args) = [] :=
  (log_trace_obs _ (fun _ => rfl) rfl (fun _ => rfl) (fun _ => rfl) (fun _ _ => rfl)
    logger lvl "" args).1

theorem panics_Logf (logger : Sugar) (lvl : Level) (format : String) (args : List Value) :
    panicsOf (Sugar.Logf logger lvl format args) = [] :=
  (log_trace_obs _ (fun _ => rfl) rfl (fun _ => rfl) (fun _ => rfl) (fun _ _ => rfl)
    logger lvl format args).2.1

theorem panics_Logln (logger : Sugar) (lvl : Level) (args : List Value) :
    panicsOf (Sugar.Logln logger lvl args) = [] :=
  (log_trace_obs _ (fun _ => rfl) rfl (fun _ => rfl) (fun _ => rfl) (fun _ _ => rfl)
    logger lvl "" args).2.2

theorem exits_Log (logger : Sugar) (lvl : Level) (args : List Value) :
    exitsOf (Sugar.Log logger lvl args) = [] :=
  (log_trace_obs _ (fun _ => rfl) rfl (fun _ => rfl) (fun _ => rfl) (fun _ _ => rfl)
    logger lvl "" args).1

theorem exits_Logf (logger : Sugar) (lvl : Level) (format : String) (args : List Value) :
    exitsOf (Sugar.Logf logger lvl format args) = [] :=
  (log_trace_obs _ (fun _ => rfl) rfl (fun _ => rfl) (fun _ => rfl) (fun _ _ => rfl)
    logger lvl format args).2.1

theorem exits_Logln (logger : Sugar) (lvl : Level) (args : List Value) :
    exitsOf (Sugar.Logln logger lvl args) = [] :=
  (log_trace_obs _ (fun _ => rfl) rfl (fun _ => rfl) (fun _ => rfl) (fun _ _ => rfl)
    logger lvl "" args).2.2

/-- C1: every front-end logging variant (`Sugar.Log`, `Sugar.Logf`,
`Sugar.Logln` and the per-level convenience wrappers, including the
std-lib-compatible Print family and the Fatal and Panic families) first calls
the dispatcher's `IsLevelEnabled`; a record is constructed via `NewLogRec`,
carrying the returned stacktrace decision, and handed to `enqueue` exactly
when the returned status has `Enabled = true`, and no record at all is
constructed when `Enabled = false`. -/
theorem C1_front_end_gating (logger : Sugar) (lvl : Level) (format : String)
    (args : List Value) :
    GatedAt logger lvl "" args false (Sugar.Log logger lvl args) ∧
    GatedAt logger lvl format args false (Sugar.Logf logger lvl format args) ∧
    GatedAt logger lvl "" args true (Sugar.Logln logger lvl args) ∧
    GatedAt logger Level.Trace "" args false (Sugar.Trace logger args) ∧
    GatedAt logger Level.Debug "" args false (Sugar.Debug logger args) ∧
    GatedAt logger Level.Info "" args false (Sugar.Info logger args) ∧
    GatedAt logger Level.Info "" args false (Sugar.Print logger args) ∧
    GatedAt logger Level.Warn "" args false (Sugar.Warn logger args) ∧
    GatedAt logger Level.Error "" args false (Sugar.Error logger args) ∧
    GatedAt logger Level.Fatal "" args false (Sugar.Fatal logger args) ∧
    GatedAt logger Level.Panic "" args false (Sugar.Panic logger args) ∧
    GatedAt logger Level.Trace format args false (Sugar.Tracef logger format args) ∧
    GatedAt logger Level.Debug format args false (Sugar.Debugf logger format args) ∧
    GatedAt logger Level.Info format args false (Sugar.Infof logger format args) ∧
    GatedAt logger Level.Info format args false (Sugar.Printf logger format args) ∧
    GatedAt logger Level.Warn format args false (Sugar.Warnf logger format args) ∧
    GatedAt logger Level.Error format args false (Sugar.Errorf logger format args) ∧
    GatedAt logger Level.Fatal format args false (Sugar.Fatalf logger format args) ∧
    GatedAt logger Level.Panic format args false (Sugar.Panicf logger format args) ∧
    GatedAt logger Level.Trace "" args true (Sugar.Traceln logger args) ∧
    GatedAt logger Level.Debug "" args true (Sugar.Debugln logger args) ∧
    GatedAt logger Level.Info "" args true (Sugar.Infoln logger args) ∧
    GatedAt logger Level.Info "" args true (Sugar.Println logger args) ∧
    GatedAt logger Level.Warn "" args true (Sugar.Warnln logger args) ∧
    GatedAt logger Level.Error "" args true (Sugar.Errorln logger args) ∧
    GatedAt logger Level.Fatal "" args true (Sugar.Fatalln logger args) ∧
    GatedAt logger Level.Panic "" args true (Sugar.Panicln logger args) :=
  ⟨gated_Log logger lvl args, gated_Logf logger lvl format args,
   gated_Logln logger lvl args,
   gated_Log logger Level.Trace args, gated_Log logger Level.Debug args,
   gated_Log logger Level.Info args, gated_Log logger Level.Info args,
   gated_Log logger Level.Warn args, gated_Log logger Level.Error args,
   gatedAt_append [Event.exitCall 1] (gated_Log logger Level.Fatal args) rfl rfl,
   gatedAt_append [Event.panicCall (fmtSprint args)]
     (gated_Log logger Level.Panic args) rfl rfl,
   gated_Logf logger Level.Trace format args, gated_Logf logger Level.Debug format args,
   gated_Logf logger Level.Info format args, gated_Logf logger Level.Info format args,
   gated_Logf logger Level.Warn format args, gated_Logf logger Level.Error format args,
   gatedAt_append [Event.exitCall 1] (gated_Logf logger Level.Fatal format args) rfl rfl,
   gated_Logf logger Level.Panic format args,
   gated_Logln logger Level.Trace args, gated_Logln logger Level.Debug args,
   gated_Logln logger Level.Info args, gated_Logln logger Level.Info args,
   gated_Logln logger Level.Warn args, gated_Logln logger Level.Error args,
   gatedAt_append [Event.exitCall 1] (gated_Logln logger Level.Fatal args) rfl rfl,
   gated_Logln logger Level.Panic args⟩

/-- C4: `Sugar.Panic` logs a record at Panic severity (enqueued exactly when
some target enables that level) and afterwards raises a panic to the caller
carrying the `fmt.Sprint`-rendered arguments; the escalation is the last
event of the trace, strictly after the whole logging call, which itself
raises no panic. -/
theorem C4_panic_escalates_after_log (logger : Sugar) (args : List Value) :
    Sugar.Panic logger args
      = Sugar.Log logger Level.Panic args ++ [Event.panicCall (fmtSprint args)] ∧
    panicsOf (Sugar.Log logger Level.Panic args) = [] ∧
    (Sugar.Panic logger args).getLast? = some (Event.panicCall (fmtSprint args)) ∧
    panicsOf (Sugar.Panic logger args) = [fmtSprint args] ∧
    enqueuedRecs (Sugar.Panic logger args) =
      (if (logger.logr.IsLevelEnabled Level.Panic).1.Enabled then
        [NewLogRec Level.Panic logger "" args
          (logger.logr.IsLevelEnabled Level.Panic).1.Stacktrace]
      else []) := by
  refine ⟨rfl, panics_Log logger Level.Panic args, ?_, ?_, ?_⟩
  · exact List.getLast?_concat _
  · show panicsOf (Sugar.Log logger Level.Panic args ++ [Event.panicCall (fmtSprint args)])
      = [fmtSprint args]
    rw [panicsOf_append, panics_Log]
    rfl
  · show enqueuedRecs (Sugar.Log logger Level.Panic args ++ [Event.panicCall (fmtSprint args)])
      = _
    rw [enqueuedRecs_append, (gated_Log logger Level.Panic args).2.2]
    simp [enqueuedRecs]

/-- C5: `Sugar.Panicf` and `Sugar.Panicln` log at Panic severity but, unlike
`Sugar.Panic`, do not escalate afterwards: for every format string and
argument list their traces are exactly those of the plain logging calls and
contain no panic (and no exit) event. -/
theorem C5_panicf_panicln_return_normally (logger : Sugar) (format : String)
    (args : List Value) :
    Sugar.Panicf logger format args = Sugar.Logf logger Level.Panic format args ∧
    Sugar.Panicln logger args = Sugar.Logln logger Level.Panic args ∧
    panicsOf (Sugar.Panicf logger format args) = [] ∧
    panicsOf (Sugar.Panicln logger args) = [] ∧
    exitsOf (Sugar.Panicf logger format args) = [] ∧
    exitsOf (Sugar.Panicln logger args) = [] :=
  ⟨rfl, rfl, panics_Logf logger Level.Panic format args, panics_Logln logger Level.Panic args,
   exits_Logf logger Level.Panic format args, exits_Logln logger Level.Panic args⟩

/-- C6: every fatal-severity front-end path (`Sugar.Fatal`, `Sugar.Fatalf`,
`Sugar.Fatalln`) invokes the process-exit hook with status 1, exactly once,
and only as the final event after the logging call (which itself never
invokes the hook), hence after the record has been enqueued and never
before. -/
theorem C6_fatal_exit_hook (logger : Sugar) (format : String) (args : List Value) :
    Sugar.Fatal logger args
      = Sugar.Log logger Level.Fatal args ++ [Event.exitCall 1] ∧
    Sugar.Fatalf logger format args
      = Sugar.Logf logger Level.Fatal format args ++ [Event.exitCall 1] ∧
    Sugar.Fatalln logger args
      = Sugar.Logln logger Level.Fatal args ++ [Event.exitCall 1] ∧
    exitsOf (Sugar.Log logger Level.Fatal args) = [] ∧
    exitsOf (Sugar.Logf logger Level.Fatal format args) = [] ∧
    exitsOf (Sugar.Logln logger Level.Fatal args) = [] ∧
    (Sugar.Fatal logger args).getLast? = some (Event.exitCall 1) ∧
    (Sugar.Fatalf logger format args).getLast? = some (Event.exitCall 1) ∧
    (Sugar.Fatalln logger args).getLast? = some (Event.exitCall 1) ∧
    exitsOf (Sugar.Fatal logger args) = [1] ∧
    exitsOf (Sugar.Fatalf logger format args) = [1] ∧
    exitsOf (Sugar.Fatalln logger args) = [1] := by
  refine ⟨rfl, rfl, rfl, exits_Log logger Level.Fatal args,
    exits_Logf logger Level.Fatal format args, exits_Logln logger Level.Fatal args,
    List.getLast?_concat _, List.getLast?_concat _, List.getLast?_concat _, ?_, ?_, ?_⟩
  · show exitsOf (Sugar.Log logger Level.Fatal args ++ [Event.exitCall 1]) = [1]
    rw [exitsOf_append, exits_Log] ; rfl
  · show exitsOf (Sugar.Logf logger Level.Fatal format args ++ [Event.exitCall 1]) = [1]
    rw [exitsOf_append, exits_Logf] ; rfl
  · show exitsOf (Sugar.Logln logger Level.Fatal args ++ [Event.exitCall 1]) = [1]
    rw [exitsOf_append, exits_Logln] ; rfl

/-- C3: a level whose id exceeds `MaxLevelID` is accepted when registered in
an explicit (custom) filter, and a subsequent log call at that level through
a dispatcher carrying that filter enables zero targets, constructs and
enqueues no record, offers nothing to any target, and invokes the
error-reporting hook exactly once — not zero times and not more than once. -/
theorem C3_invalid_level_reported_once (lvl : Level) (fref : Option Nat)
    (args : List Value) (hid : MaxLevelID < lvl.ID) :
    let filter := LogrFilter.custom (CustomFilter.Add [] [lvl])
    let lgr : Logr := ⟨[filter]⟩
    let logger : Sugar := ⟨lgr, fref⟩
    lvl ∈ CustomFilter.Add [] [lvl] ∧
    (lgr.IsLevelEnabled lvl).1.Enabled = false ∧
    errorReports (Sugar.Log logger lvl args) = 1 ∧
    offersOf (Sugar.Log logger lvl args) = [] ∧
    newRecs (Sugar.Log logger lvl args) = [] ∧
    enqueuedRecs (Sugar.Log logger lvl args) = [] := by
  refine ⟨by simp [CustomFilter.Add], ?_, ?_, ?_, ?_, ?_⟩ <;>
    simp [Sugar.Log, Logr.IsLevelEnabled, LogrFilter.Evaluate, CustomFilter.Add, hid,
      errorReports, offersOf, newRecs, enqueuedRecs]

/-- Closed instantiation of the C3 theorem at the test's `BadLevel`
(`levelcustom_test.go`, `TestLevelIDTooLarge`). -/
theorem C3_invalid_level_reported_once_witness :
    MaxLevelID < BadLevel.ID ∧
    (BadLevel ∈ CustomFilter.Add [] [BadLevel] ∧
     ((⟨[LogrFilter.custom (CustomFilter.Add [] [BadLevel])]⟩ : Logr).IsLevelEnabled
        BadLevel).1.Enabled = false ∧
     errorReports (Sugar.Log ⟨⟨[LogrFilter.custom (CustomFilter.Add [] [BadLevel])]⟩, none⟩
        BadLevel [Value.str "this item will trigger OnLoggerError"]) = 1 ∧
     offersOf (Sugar.Log ⟨⟨[LogrFilter.custom (CustomFilter.Add [] [BadLevel])]⟩, none⟩
        BadLevel [Value.str "this item will trigger OnLoggerError"]) = [] ∧
     newRecs (Sugar.Log ⟨⟨[LogrFilter.custom (CustomFilter.Add [] [BadLevel])]⟩, none⟩
        BadLevel [Value.str "this item will trigger OnLoggerError"]) = [] ∧
     enqueuedRecs (Sugar.Log ⟨⟨[LogrFilter.custom (CustomFilter.Add [] [BadLevel])]⟩, none⟩
        BadLevel [Value.str "this item will trigger OnLoggerError"]) = []) :=
  ⟨by decide,
   C3_invalid_level_reported_once BadLevel none
     [Value.str "this item will trigger OnLoggerError"] (by decide)⟩

/-- C7: against a dispatcher whose single target carries an explicit filter
registered with exactly `LoginLevel` (id 100) and `LogoutLevel` (id 101), a
log call is enabled and offered to the target exactly when the level id is
one of those two ids; calls at `Error` or `Debug` enable nothing and offer
and enqueue no record, even though those levels were never explicitly
excluded. -/
theorem C7_explicit_filter_exact_ids (lvl : Level) (fref : Option Nat)
    (args : List Value) :
    let filter := LogrFilter.custom (CustomFilter.Add [] [LoginLevel, LogoutLevel])
    let lgr : Logr := ⟨[filter]⟩
    let logger : Sugar := ⟨lgr, fref⟩
    ((lgr.IsLevelEnabled lvl).1.Enabled = (lvl.ID == 100 || lvl.ID == 101)) ∧
    (offersOf (Sugar.Log logger lvl args) ≠ [] ↔ (lvl.ID = 100 ∨ lvl.ID = 101)) ∧
    offersOf (Sugar.Log logger Level.Error args) = [] ∧
    offersOf (Sugar.Log logger Level.Debug args) = [] ∧
    newRecs (Sugar.Log logger Level.Error args) = [] ∧
    newRecs (Sugar.Log logger Level.Debug args) = [] ∧
    enqueuedRecs (Sugar.Log logger Level.Error args) = [] ∧
    enqueuedRecs (Sugar.Log logger Level.Debug args) = [] := by
  intro filter lgr logger
  have hmain : ∀ l : Level,
      (lgr.IsLevelEnabled l).1.Enabled = (l.ID == 100 || l.ID == 101) := by
    intro l
    by_cases h1 : l.ID = 100
    · simp [Logr.IsLevelEnabled, LogrFilter.Evaluate, CustomFilter.Add, LoginLevel,
        LogoutLevel, MaxLevelID, h1]
    · by_cases h2 : l.ID = 101
      · simp [Logr.IsLevelEnabled, LogrFilter.Evaluate, CustomFilter.Add, LoginLevel,
          LogoutLevel, MaxLevelID, h2]
      · by_cases h3 : MaxLevelID < l.ID <;>
          simp [Logr.IsLevelEnabled, LogrFilter.Evaluate, CustomFilter.Add, LoginLevel,
            LogoutLevel, h1, h2, h3, Ne.symm h1, Ne.symm h2]
  refine ⟨hmain lvl, ?_, ?_, ?_, ?_, ?_, ?_, ?_⟩
  · by_cases h1 : lvl.ID = 100
    · simp [Sugar.Log, Logr.IsLevelEnabled, LogrFilter.Evaluate, CustomFilter.Add,
        LoginLevel, LogoutLevel, MaxLevelID, h1, offersOf, Logr.enqueue, List.enum,
        List.enumFrom, NewLogRec]
    · by_cases h2 : lvl.ID = 101
      · simp [Sugar.Log, Logr.IsLevelEnabled, LogrFilter.Evaluate, CustomFilter.Add,
          LoginLevel, LogoutLevel, MaxLevelID, h2, offersOf, Logr.enqueue, List.enum,
          List.enumFrom, NewLogRec]
      · by_cases h3 : MaxLevelID < lvl.ID <;>
          simp [Sugar.Log, Logr.IsLevelEnabled, LogrFilter.Evaluate, CustomFilter.Add,
            LoginLevel, LogoutLevel, h1, h2, h3, Ne.symm h1, Ne.symm h2, offersOf]
  all_goals
    simp [Sugar.Log, Logr.IsLevelEnabled, LogrFilter.Evaluate, CustomFilter.Add,
      LoginLevel, LogoutLevel, Level.Error, Level.Debug, MaxLevelID, offersOf, newRecs,
      enqueuedRecs]

theorem findField_insertField (m : GoFields) (k key : String) (v : Value) :
    findField (insertField m k v) key = if k = key then some v else findField m key := by
  induction m with
  | nil => rfl
  | cons p rest ih =>
    obtain ⟨k0, v0⟩ := p
    by_cases h0 : k0 = k
    · subst h0
      by_cases hk : k0 = key <;> simp [insertField, findField, hk]
    · by_cases hk0 : k0 = key
      · subst hk0
        have hne : ¬k = k0 := fun hc => h0 hc.symm
        simp [insertField, findField, h0, hne]
      · simp [insertField, findField, h0, hk0, ih]

theorem findField_not_mem (m : GoFields) (key : String)
    (h : key ∉ m.map Prod.fst) : findField m key = none := by
  induction m with
  | nil => rfl
  | cons p rest ih =>
    obtain ⟨k0, v0⟩ := p
    simp only [List.map_cons, List.mem_cons] at h
    push_neg at h
    simp [findField, Ne.symm h.1, ih h.2]

theorem findField_insertAll (src : GoFields) (hnd : keysNodup src)
    (dst : GoFields) (key : String) :
    findField (insertAll dst src) key = (findField src key).or (findField dst key) := by
  induction src generalizing dst with
  | nil => simp [insertAll, findField, Option.none_or]
  | cons p rest ih =>
    obtain ⟨k0, v0⟩ := p
    simp only [keysNodup, List.map_cons, List.nodup_cons] at hnd
    obtain ⟨hk0, hnd'⟩ := hnd
    have hstep : insertAll dst ((k0, v0) :: rest) = insertAll (insertField dst k0 v0) rest := rfl
    rw [hstep, ih hnd' (insertField dst k0 v0)]
    by_cases hkey : k0 = key
    · subst hkey
      have hnone : findField rest k0 = none := findField_not_mem rest k0 hk0
      simp [findField, hnone, findField_insertField, Option.none_or]
    · simp [findField, hkey, findField_insertField]

theorem Heap.get_alloc_lt (h : Heap) (m : GoFields) {r : Nat} (hr : r < h.maps.length) :
    (h.alloc m).1.get r = h.get r := by
  simp [Heap.alloc, Heap.get, List.getD_eq_getElem?_getD, List.getElem?_append, hr]

theorem Heap.get_alloc_self (h : Heap) (m : GoFields) :
    (h.alloc m).1.get (h.alloc m).2 = m := by
  simp [Heap.alloc, Heap.get, List.getD_eq_getElem?_getD, List.getElem?_concat_length]

theorem Heap.get_write_self (h : Heap) {r : Nat} (m : GoFields) (hr : r < h.maps.length) :
    (h.write r m).get r = m := by
  simp [Heap.write, Heap.get, List.getD_eq_getElem?_getD, List.getElem?_set_self hr]

theorem Sugar.fieldMap_alloc (h : Heap) (logger : Sugar) (m : GoFields)
    (hwf : Sugar.wfRef h logger) :
    Sugar.fieldMap (h.alloc m).1 logger = Sugar.fieldMap h logger := by
  cases hf : logger.fields with
  | none => simp [Sugar.fieldMap, hf]
  | some r =>
    have hr : r < h.maps.length := by simpa [Sugar.wfRef, hf] using hwf
    simp [Sugar.fieldMap, hf, Heap.get_alloc_lt h m hr]

theorem Sugar.wfRef_alloc (h : Heap) (logger : Sugar) (m : GoFields)
    (hwf : Sugar.wfRef h logger) : Sugar.wfRef (h.alloc m).1 logger := by
  cases hf : logger.fields with
  | none => simp [Sugar.wfRef, hf]
  | some r =>
    have hr : r < h.maps.length := by simpa [Sugar.wfRef, hf] using hwf
    simp only [Sugar.wfRef, hf, Heap.alloc, List.length_append, List.length_cons,
      List.length_nil]
    omega

theorem withFields_no_alloc (h : Heap) (logger : Sugar) (mref : Nat)
    (h0 : Sugar.fieldsLen h logger = 0) :
    (Sugar.WithFields h logger mref).1 = h := by
  simp [Sugar.WithFields, h0]

theorem withFields_alias (h : Heap) (logger : Sugar) (mref : Nat)
    (h0 : Sugar.fieldsLen h logger = 0) :
    (Sugar.WithFields h logger mref).2.fields = some mref := by
  simp [Sugar.WithFields, h0]

theorem withFields_fresh (h : Heap) (logger : Sugar) (mref : Nat)
    (h0 : ¬Sugar.fieldsLen h logger = 0) :
    (Sugar.WithFields h logger mref).2.fields = some h.maps.length := by
  simp [Sugar.WithFields, h0, Heap.alloc]

theorem withFields_parent_unchanged (h : Heap) (logger : Sugar) (mref : Nat)
    (hwf : Sugar.wfRef h logger) :
    Sugar.fieldMap (Sugar.WithFields h logger mref).1 logger = Sugar.fieldMap h logger := by
  by_cases h0 : Sugar.fieldsLen h logger = 0
  · rw [withFields_no_alloc h logger mref h0]
  · simp only [Sugar.WithFields, if_neg h0]
    exact Sugar.fieldMap_alloc h logger _ hwf

theorem withFields_child_lookup (h : Heap) (logger : Sugar) (mref : Nat) (key : String)
    (hm : keysNodup (h.get mref)) (hp : keysNodup (Sugar.fieldMap h logger)) :
    Sugar.fieldValue (Sugar.WithFields h logger mref).1 (Sugar.WithFields h logger mref).2 key
      = (findField (h.get mref) key).or (Sugar.fieldValue h logger key) := by
  by_cases h0 : Sugar.fieldsLen h logger = 0
  · have hmap : Sugar.fieldMap h logger = [] := by
      have h0' := h0
      rw [Sugar.fieldsLen] at h0'
      exact List.length_eq_zero.mp h0'
    have hrhs : Sugar.fieldValue h logger key = none := by
      rw [Sugar.fieldValue, hmap]
      rfl
    rw [hrhs, Option.or_none]
    simp [Sugar.WithFields, h0, Sugar.fieldValue, Sugar.fieldMap]
  · simp only [Sugar.WithFields, if_neg h0]
    rw [Sugar.fieldValue, Sugar.fieldMap]
    simp only [Heap.get_alloc_self]
    rw [findField_insertAll (h.get mref) hm _ key,
      findField_insertAll (Sugar.fieldMap h logger) hp [] key]
    simp [findField, Sugar.fieldValue, Option.or_none]

/-- C2: `WithFields` returns a new logger whose field set is the parent's
fields overlaid with the supplied map, keys of the supplied map winning on
collision; the parent's own field set is unchanged by the call; when the
parent has no fields the heap is untouched (no new map is allocated); and
`WithField` behaves as `WithFields` with the corresponding one-entry map. -/
theorem C2_withFields_overlay (h : Heap) (logger : Sugar) (mref : Nat)
    (key fkey : String) (fval : Value)
    (hwf : Sugar.wfRef h logger) (hm : keysNodup (h.get mref))
    (hp : keysNodup (Sugar.fieldMap h logger)) :
    Sugar.fieldValue (Sugar.WithFields h logger mref).1 (Sugar.WithFields h logger mref).2 key
      = (findField (h.get mref) key).or (Sugar.fieldValue h logger key) ∧
    Sugar.fieldMap (Sugar.WithFields h logger mref).1 logger = Sugar.fieldMap h logger ∧
    (Sugar.fieldsLen h logger = 0 → (Sugar.WithFields h logger mref).1 = h) ∧
    Sugar.fieldValue (Sugar.WithField h logger fkey fval).1
        (Sugar.WithField h logger fkey fval).2 key
      = (if fkey = key then some fval else Sugar.fieldValue h logger key) ∧
    Sugar.fieldMap (Sugar.WithField h logger fkey fval).1 logger
      = Sugar.fieldMap h logger := by
  have halloc := Sugar.fieldMap_alloc h logger [(fkey, fval)] hwf
  have hwf' := Sugar.wfRef_alloc h logger [(fkey, fval)] hwf
  have hm' : keysNodup ((h.alloc [(fkey, fval)]).1.get (h.alloc [(fkey, fval)]).2) := by
    rw [Heap.get_alloc_self]
    simp [keysNodup]
  have hp' : keysNodup (Sugar.fieldMap (h.alloc [(fkey, fval)]).1 logger) := by
    rw [halloc]; exact hp
  have hvalue : ∀ k, Sugar.fieldValue (h.alloc [(fkey, fval)]).1 logger k
      = Sugar.fieldValue h logger k := by
    intro k
    rw [Sugar.fieldValue, Sugar.fieldValue, halloc]
  refine ⟨withFields_child_lookup h logger mref key hm hp,
    withFields_parent_unchanged h logger mref hwf,
    withFields_no_alloc h logger mref, ?_, ?_⟩
  · have hc := withFields_child_lookup (h.alloc [(fkey, fval)]).1 logger
      (h.alloc [(fkey, fval)]).2 key hm' hp'
    rw [Sugar.WithField, hc, Heap.get_alloc_self, hvalue key]
    by_cases hkk : fkey = key <;> simp [findField, hkk, Option.none_or]
  · rw [Sugar.WithField, withFields_parent_unchanged _ logger _ hwf', halloc]

/-- Closed instantiation of the C2 theorem: a parent holding `user -> Bob`
overlaid with a map holding `user -> Eve` yields `Eve` through the child,
while through a parent with no fields `WithField` adds exactly the new
entry. -/
theorem C2_withFields_overlay_witness :
    Sugar.fieldValue
      (Sugar.WithFields ⟨[[("user", Value.str "Bob")], [("user", Value.str "Eve")]]⟩
        ⟨⟨[]⟩, some 0⟩ 1).1
      (Sugar.WithFields ⟨[[("user", Value.str "Bob")], [("user", Value.str "Eve")]]⟩
        ⟨⟨[]⟩, some 0⟩ 1).2 "user" = some (Value.str "Eve") ∧
    Sugar.fieldMap
      (Sugar.WithFields ⟨[[("user", Value.str "Bob")], [("user", Value.str "Eve")]]⟩
        ⟨⟨[]⟩, some 0⟩ 1).1 ⟨⟨[]⟩, some 0⟩ = [[("user", Value.str "Bob")],
          [("user", Value.str "Eve")]].get ⟨0, by decide⟩ := by
  constructor
  · rw [(C2_withFields_overlay ⟨[[("user", Value.str "Bob")], [("user", Value.str "Eve")]]⟩
      ⟨⟨[]⟩, some 0⟩ 1 "user" "role" (Value.int 2)
      (show (0 : Nat) < 2 by decide) (by decide) (by decide)).1]
    decide
  · rw [(C2_withFields_overlay ⟨[[("user", Value.str "Bob")], [("user", Value.str "Eve")]]⟩
      ⟨⟨[]⟩, some 0⟩ 1 "user" "role" (Value.int 2)
      (show (0 : Nat) < 2 by decide) (by decide) (by decide)).2.1]
    decide

/-- C9: when the parent has no fields, `WithFields` stores the caller's map
reference itself (the child aliases the very map, no copy and no
allocation), so a later in-place mutation of that map by the caller is
visible through the child logger; a fresh copy is made exactly when the
parent already has at least one field, in which case the child's reference
is the freshly allocated address, not the caller's. -/
theorem C9_withFields_aliasing (h : Heap) (logger : Sugar) (mref : Nat)
    (m2 : GoFields) (key : String) (hr : mref < h.maps.length) :
    (Sugar.fieldsLen h logger = 0 →
      (Sugar.WithFields h logger mref).2.fields = some mref ∧
      (Sugar.WithFields h logger mref).1 = h ∧
      Sugar.fieldValue (Heap.write h mref m2) (Sugar.WithFields h logger mref).2 key
        = findField m2 key) ∧
    (Sugar.fieldsLen h logger ≠ 0 →
      (Sugar.WithFields h logger mref).2.fields = some h.maps.length ∧
      (Sugar.WithFields h logger mref).2.fields ≠ some mref) := by
  constructor
  · intro h0
    refine ⟨withFields_alias h logger mref h0, withFields_no_alloc h logger mref h0, ?_⟩
    rw [Sugar.fieldValue, Sugar.fieldMap, withFields_alias h logger mref h0]
    show findField ((h.write mref m2).get mref) key = findField m2 key
    rw [Heap.get_write_self h m2 hr]
  · intro h0
    refine ⟨withFields_fresh h logger mref h0, ?_⟩
    rw [withFields_fresh h logger mref h0]
    intro hc
    have : h.maps.length = mref := by simpa using hc
    omega

/-- Closed instantiation of the C9 theorem: with an empty parent the child
shares the caller's map (address 0) and sees the caller's later write, while
with a non-empty parent the child receives the fresh address 2, not the
caller's address 1. -/
theorem C9_withFields_aliasing_witness :
    ((Sugar.WithFields ⟨[[("k", Value.int 1)]]⟩ ⟨⟨[]⟩, none⟩ 0).2.fields = some 0 ∧
     (Sugar.WithFields ⟨[[("k", Value.int 1)]]⟩ ⟨⟨[]⟩, none⟩ 0).1
        = ⟨[[("k", Value.int 1)]]⟩ ∧
     Sugar.fieldValue (Heap.write ⟨[[("k", Value.int 1)]]⟩ 0 [("k", Value.int 9)])
        (Sugar.WithFields ⟨[[("k", Value.int 1)]]⟩ ⟨⟨[]⟩, none⟩ 0).2 "k"
        = findField [("k", Value.int 9)] "k") ∧
    ((Sugar.WithFields ⟨[[("p", Value.int 1)], [("q", Value.int 2)]]⟩
        ⟨⟨[]⟩, some 0⟩ 1).2.fields = some 2 ∧
     (Sugar.WithFields ⟨[[("p", Value.int 1)], [("q", Value.int 2)]]⟩
        ⟨⟨[]⟩, some 0⟩ 1).2.fields ≠ some 1) :=
  ⟨(C9_withFields_aliasing ⟨[[("k", Value.int 1)]]⟩ ⟨⟨[]⟩, none⟩ 0
      [("k", Value.int 9)] "k" (by decide)).1 (by decide),
   (C9_withFields_aliasing ⟨[[("p", Value.int 1)], [("q", Value.int 2)]]⟩
      ⟨⟨[]⟩, some 0⟩ 1 [("k", Value.int 9)] "k" (by decide)).2 (by decide)⟩

theorem insertSorted_perm (f : LogField) (l : List LogField) :
    (insertSorted f l).Perm (f :: l) := by
  induction l with
  | nil => exact List.Perm.refl _
  | cons g gs ih =>
    rw [insertSorted]
    by_cases h : f.Key ≤ g.Key
    · rw [if_pos h]
    · rw [if_neg h]
      exact (ih.cons g).trans (List.Perm.swap f g gs)

theorem sortFields_perm (l : List LogField) : (sortFields l).Perm l := by
  induction l with
  | nil => exact List.Perm.refl _
  | cons f fs ih =>
    rw [sortFields]
    exact (insertSorted_perm f (sortFields fs)).trans (ih.cons f)

theorem pairwise_insertSorted (f : LogField) (l : List LogField)
    (hl : l.Pairwise (fun a b => a.Key ≤ b.Key)) :
    (insertSorted f l).Pairwise (fun a b => a.Key ≤ b.Key) := by
  induction l with
  | nil => simp [insertSorted]
  | cons g gs ih =>
    rw [insertSorted]
    rw [List.pairwise_cons] at hl
    obtain ⟨hg, hgs⟩ := hl
    by_cases h : f.Key ≤ g.Key
    · rw [if_pos h]
      refine List.pairwise_cons.2 ⟨?_, List.pairwise_cons.2 ⟨hg, hgs⟩⟩
      intro b hb
      rcases List.mem_cons.1 hb with rfl | hb'
      · exact h
      · exact le_trans h (hg b hb')
    · rw [if_neg h]
      refine List.pairwise_cons.2 ⟨?_, ih hgs⟩
      intro b hb
      rcases List.mem_cons.1 ((insertSorted_perm f gs).mem_iff.1 hb) with rfl | hb'
      · exact le_of_not_le h
      · exact hg b hb'

theorem sortFields_pairwise (l : List LogField) :
    (sortFields l).Pairwise (fun a b => a.Key ≤ b.Key) := by
  induction l with
  | nil => simp [sortFields]
  | cons f fs ih => exact pairwise_insertSorted f (sortFields fs) ih

theorem JSON.applyDefaultKeyNames_contextSorter (j : JSON) :
    (JSON.applyDefaultKeyNames j).ContextSorter = j.ContextSorter := by
  simp only [JSON.applyDefaultKeyNames]
  split_ifs <;> rfl

theorem JSON.onceDo_contextSorter (j : JSON) :
    (JSON.onceDo j).ContextSorter = j.ContextSorter := by
  rw [JSON.onceDo]
  split_ifs with h
  · rfl
  · simp [JSON.applyDefaultKeyNames_contextSorter]

/-- C8: `JSON.Format` does not mutate the log record it formats: with the
default sorter in effect the record comes out of the call exactly as it went
in; and the default context sorter leaves the original field slice untouched
(same elements in their original order) while returning a new slice that is
a permutation of the input sorted alphabetically by key. -/
theorem C8_format_no_mutation (j : JSON) (rv : RecView) (stacktrace : Bool)
    (fields : List LogField) (hnone : j.ContextSorter = none) :
    (JSON.Format j rv stacktrace).2.1 = rv ∧
    (JSON.defaultContextSorter j fields).1 = fields ∧
    ((JSON.defaultContextSorter j fields).2).Perm fields ∧
    ((JSON.defaultContextSorter j fields).2).Pairwise (fun a b => a.Key ≤ b.Key) := by
  refine ⟨?_, rfl, sortFields_perm fields, sortFields_pairwise fields⟩
  have hsorter : (JSON.onceDo j).ContextSorter = none := by
    rw [JSON.onceDo_contextSorter, hnone]
  simp only [JSON.Format, JSONLogRec.MarshalJSONObject, hsorter, JSON.defaultContextSorter]
  split_ifs <;> rfl

/-- Closed instantiation of the C8 theorem: formatting a concrete record
with a default-configured formatter returns the record unchanged, and the
default sorter sorts a copy. -/
theorem C8_format_no_mutation_witness :
    (JSON.Format
        ⟨false, false, false, false, false, "", false, "", "", "", "", "", none, false⟩
        ⟨0, "info", "hello", [⟨"ctx", FieldKind.defaultType, Value.int 1⟩], []⟩ true).2.1
      = ⟨0, "info", "hello", [⟨"ctx", FieldKind.defaultType, Value.int 1⟩], []⟩ ∧
    (JSON.defaultContextSorter
        ⟨false, false, false, false, false, "", false, "", "", "", "", "", none, false⟩
        [⟨"ctx", FieldKind.defaultType, Value.int 1⟩]).1 = [⟨"ctx", FieldKind.defaultType, Value.int 1⟩] ∧
    (JSON.defaultContextSorter
        ⟨false, false, false, false, false, "", false, "", "", "", "", "", none, false⟩
        [⟨"ctx", FieldKind.defaultType, Value.int 1⟩]).2 = [⟨"ctx", FieldKind.defaultType, Value.int 1⟩] :=
  ⟨(C8_format_no_mutation _ _ _ [⟨"ctx", FieldKind.defaultType, Value.int 1⟩] rfl).1,
   (C8_format_no_mutation
      ⟨false, false, false, false, false, "", false, "", "", "", "", "", none, false⟩
      ⟨0, "info", "hello", [⟨"ctx", FieldKind.defaultType, Value.int 1⟩], []⟩ true [⟨"ctx", FieldKind.defaultType, Value.int 1⟩] rfl).2.1,
   rfl⟩

theorem length_le_reserved_of_eq {cfg : JSON} {key : String}
    (h : key = cfg.KeyTimestamp ∨ key = cfg.KeyLevel ∨ key = cfg.KeyMsg ∨
      key = cfg.KeyStacktrace) :
    key.length ≤ reservedKeyLen cfg := by
  unfold reservedKeyLen
  rcases h with h | h | h | h <;> rw [h] <;>
    first
    | exact le_trans (Nat.le_max_left _ _) (Nat.le_max_left _ _)
    | exact le_trans (Nat.le_max_right _ _) (Nat.le_max_left _ _)
    | exact le_trans (Nat.le_max_left _ _) (Nat.le_max_right _ _)
    | exact le_trans (Nat.le_max_right _ _) (Nat.le_max_right _ _)

theorem prefixCollision_spec_aux (r : JSONLogRec) :
    ∀ (n : Nat) (key : String), reservedKeyLen r.cfg + 1 - key.length ≤ n →
      r.prefixCollision key ≠ r.cfg.KeyTimestamp ∧
      r.prefixCollision key ≠ r.cfg.KeyLevel ∧
      r.prefixCollision key ≠ r.cfg.KeyMsg ∧
      r.prefixCollision key ≠ r.cfg.KeyStacktrace ∧
      ∃ m, r.prefixCollision key = addUnderscores m key := by
  intro n
  induction n with
  | zero =>
    intro key hk
    have hcond : ¬(key = r.cfg.KeyTimestamp ∨ key = r.cfg.KeyLevel ∨ key = r.cfg.KeyMsg ∨
        key = r.cfg.KeyStacktrace) := by
      intro hc
      have := length_le_reserved_of_eq hc
      omega
    rw [JSONLogRec.prefixCollision, dif_neg hcond]
    exact ⟨fun he => hcond (Or.inl he), fun he => hcond (Or.inr (Or.inl he)),
      fun he => hcond (Or.inr (Or.inr (Or.inl he))),
      fun he => hcond (Or.inr (Or.inr (Or.inr he))), 0, rfl⟩
  | succ n ih =>
    intro key hk
    by_cases hc : key = r.cfg.KeyTimestamp ∨ key = r.cfg.KeyLevel ∨ key = r.cfg.KeyMsg ∨
        key = r.cfg.KeyStacktrace
    · have hkey := length_le_reserved_of_eq hc
      have hlen : ("_" ++ key).length = 1 + key.length := by
        have h1 : ("_" : String).length = 1 := rfl
        rw [String.length_append, h1]
      have hm : reservedKeyLen r.cfg + 1 - ("_" ++ key).length ≤ n := by omega
      obtain ⟨h1, h2, h3, h4, m, hm'⟩ := ih ("_" ++ key) hm
      rw [JSONLogRec.prefixCollision, dif_pos hc]
      exact ⟨h1, h2, h3, h4, m + 1, hm'⟩
    · rw [JSONLogRec.prefixCollision, dif_neg hc]
      exact ⟨fun he => hc (Or.inl he), fun he => hc (Or.inr (Or.inl he)),
        fun he => hc (Or.inr (Or.inr (Or.inl he))),
        fun he => hc (Or.inr (Or.inr (Or.inr he))), 0, rfl⟩

theorem contextKeys_append (l₁ l₂ : List (String × JVal)) :
    contextKeys (l₁ ++ l₂) = contextKeys l₁ ++ contextKeys l₂ := by
  simp [contextKeys]

theorem contextKeys_map_encodeField (pc : LogField → String) (l : List LogField) :
    contextKeys (l.map (fun cf => encodeField (pc cf) cf))
      = l.map (fun cf => (encodeField (pc cf) cf).1) := by
  induction l with
  | nil => rfl
  | cons f fs ih =>
    cases hft : f.type <;>
      simp only [List.map_cons, contextKeys, List.filterMap_cons, encodeField, hft] at ih ⊢ <;>
      simp_all

/-- The top-level context keys emitted by `MarshalJSONObject` are exactly
the collision-prefixed keys of the sorted context fields (and none at all
when context output is disabled or grouped under a dedicated key). -/
theorem contextKeys_marshal (r : JSONLogRec) :
    contextKeys (r.MarshalJSONObject).2 =
      if r.cfg.DisableContext = false ∧ r.cfg.KeyContextFields = "" then
        ((r.sorter r.rv.fields).2).map
          (fun cf => (encodeField (r.prefixCollision cf.Key) cf).1)
      else [] := by
  simp only [JSONLogRec.MarshalJSONObject]
  rw [contextKeys_append, contextKeys_append, contextKeys_append, contextKeys_append]
  have hts : contextKeys (if !r.cfg.DisableTimestamp then
      [(r.cfg.KeyTimestamp, JVal.jtime r.rv.time
        (if r.cfg.TimestampFormat = "" then DefTimestampFormat else r.cfg.TimestampFormat))]
    else []) = [] := by
    split <;> rfl
  have hlvl : contextKeys (if !r.cfg.DisableLevel then
      [(r.cfg.KeyLevel, JVal.jstr r.rv.levelName)] else []) = [] := by
    split <;> rfl
  have hmsg : contextKeys (if !r.cfg.DisableMsg then
      [(r.cfg.KeyMsg, JVal.jstr r.rv.msg)] else []) = [] := by
    split <;> rfl
  have hst : contextKeys (if r.stacktrace && !r.cfg.DisableStacktrace then
      if 0 < r.rv.frames.length then [(r.cfg.KeyStacktrace, JVal.jarr r.rv.frames)] else []
    else []) = [] := by
    split
    · split <;> rfl
    · rfl
  rw [hts, hlvl, hmsg, hst]
  by_cases hdc : r.cfg.DisableContext
  · simp [hdc, contextKeys]
  · by_cases hkc : r.cfg.KeyContextFields = ""
    · by_cases hlen : 0 < ((r.sorter r.rv.fields).2).length
      · simp [hdc, hkc, hlen, contextKeys_map_encodeField]
      · have hempty : (r.sorter r.rv.fields).2 = [] :=
          List.length_eq_zero.mp (by omega)
        simp [hdc, hkc, hlen, hempty, contextKeys]
    · simp [hdc, hkc, contextKeys]

/-- C10 (amended): `prefixCollision` terminates on every input key (it is a
total function of the embedding, accepted by well-founded recursion on the
key length against the longest reserved name) and returns a key, obtained
by prepending underscores, that differs from all four configured reserved
key names; consequently every context field `MarshalJSONObject` emits at
the top level appears either under a key distinct from every reserved key
or — for an `UnknownType` field only — under the field's own unprefixed
key, which `encodeField`'s UnknownType arm uses in place of the supplied
collision-prefixed one. -/
theorem C10_prefix_collision_free (r : JSONLogRec) (key : String) :
    r.prefixCollision key ≠ r.cfg.KeyTimestamp ∧
    r.prefixCollision key ≠ r.cfg.KeyLevel ∧
    r.prefixCollision key ≠ r.cfg.KeyMsg ∧
    r.prefixCollision key ≠ r.cfg.KeyStacktrace ∧
    (∃ m, r.prefixCollision key = addUnderscores m key) ∧
    (contextKeys (r.MarshalJSONObject).2).all
      (fun k =>
        ((r.sorter r.rv.fields).2).any
          (fun cf => cf.type == FieldKind.unknownType && cf.Key == k) ||
        (k != r.cfg.KeyTimestamp && k != r.cfg.KeyLevel && k != r.cfg.KeyMsg &&
          k != r.cfg.KeyStacktrace)) = true := by
  obtain ⟨h1, h2, h3, h4, hm⟩ :=
    prefixCollision_spec_aux r (reservedKeyLen r.cfg + 1 - key.length) key le_rfl
  refine ⟨h1, h2, h3, h4, hm, ?_⟩
  rw [List.all_eq_true]
  intro k hk
  rw [contextKeys_marshal] at hk
  split at hk
  · obtain ⟨cf, hcf, hkey⟩ := List.mem_map.1 hk
    subst hkey
    rw [Bool.or_eq_true]
    cases hft : cf.type with
    | unknownType =>
      left
      rw [List.any_eq_true]
      refine ⟨cf, hcf, ?_⟩
      simp [encodeField, hft]
    | boolType =>
      right
      obtain ⟨g1, g2, g3, g4, _⟩ :=
        prefixCollision_spec_aux r (reservedKeyLen r.cfg + 1 - cf.Key.length) cf.Key le_rfl
      simp [encodeField, hft, g1, g2, g3, g4]
    | defaultType =>
      right
      obtain ⟨g1, g2, g3, g4, _⟩ :=
        prefixCollision_spec_aux r (reservedKeyLen r.cfg + 1 - cf.Key.length) cf.Key le_rfl
      simp [encodeField, hft, g1, g2, g3, g4]
  · simp at hk

/-- Counterexample to C10 as stated: formatting, with a fully
default-configured formatter, a record whose single context field is
`{Key: "msg", Type: UnknownType}` emits that context field under the key
"msg" — the very key of the reserved top-level msg field, which is emitted
too — because `encodeField`'s UnknownType arm bypasses the supplied
collision-prefixed key.  The output's key sequence is timestamp, level,
msg, msg. -/
theorem C10_unknownType_collision :
    ((JSON.Format
        ⟨false, false, false, false, false, "", false, "", "", "", "", "", none, false⟩
        ⟨0, "info", "hello", [⟨"msg", FieldKind.unknownType, Value.str "v"⟩], []⟩
        false).2.2).map Prod.fst = ["timestamp", "level", "msg", "msg"] ∧
    contextKeys
      ((JSON.Format
        ⟨false, false, false, false, false, "", false, "", "", "", "", "", none, false⟩
        ⟨0, "info", "hello", [⟨"msg", FieldKind.unknownType, Value.str "v"⟩], []⟩
        false).2.2) = ["msg"] ∧
    ((JSON.Format
        ⟨false, false, false, false, false, "", false, "", "", "", "", "", none, false⟩
        ⟨0, "info", "hello", [⟨"msg", FieldKind.unknownType, Value.str "v"⟩], []⟩
        false).1).KeyMsg = "msg" := by
  refine ⟨?_, ?_, ?_⟩ <;> rfl
